import Mathlib

/-!
Verification development for the small_v8_engine interpreter
(src/small_v8_engine.cpp): a tree-walking evaluator for a small
dynamically typed scripting language with a lexically scoped
environment chain and a cooperative task scheduler.

The C++ code is shallowly embedded: the tagged `Value` struct becomes an
inductive type, the shared mutable `Environment` chain becomes a store of
frames addressed by index (parents are created before children, so a
parent index is always smaller than its child's), and every `eval`
method becomes one arm of a fuel-indexed evaluation function.  C++
`double` is modelled as `Rat` (the claims under study never exercise
NaN/Infinity behaviour), and thrown `runtime_error`s become an `err`
outcome carrying the message string.
-/

namespace V8Mini

/-- AST node kinds, one per `ASTNode` subclass of the source
(NumberNode, StringNode, IdentifierNode, ArrayNode, ObjectNode,
BinaryOpNode, BlockNode, VarDeclNode, IfNode, WhileNode,
FunctionDeclNode, CallNode). -/
inductive Node where
  | num (v : ℚ)
  | str (s : String)
  | ident (name : String)
  | arr (elems : List Node)
  | obj (props : List (String × Node))
  | binop (op : String) (l r : Node)
  | block (stmts : List Node)
  | varDecl (name : String) (init : Option Node)
  | ifN (cond : Node) (thenB : Node) (elseB : Option Node)
  | whileN (cond : Node) (body : Node)
  | funcDecl (name : String) (params : List String) (body : Node)
  | call (callee : String) (args : List Node)

/-- Identifiers for the two native functions installed in `main`
(`print` and `setTimeout`); the `nativeFn` field of a native `Value`
only ever holds one of these two host callbacks. -/
inductive NativeId where
  | printFn
  | setTimeoutFn

/-- Tagged dynamic value (`struct Value`), one constructor per
`ValueType` tag.  A user function carries its parameter names, body AST
and the index of its captured closure frame; lists and maps carry their
element values directly (the engine never mutates a stored Value in
place, so `shared_ptr` aliasing is unobservable). -/
inductive Value where
  | vnull
  | vnum (n : ℚ)
  | vstr (s : String)
  | vbool (b : Bool)
  | vlist (elems : List Value)
  | vobj (props : List (String × Value))
  | vfunc (params : List String) (body : Node) (closure : Nat)
  | vnative (id : NativeId)

/-- Reading the `numVal` field of a `Value`.  In the C++ struct every
value has a `numVal` field defaulting to 0, and the engine only ever
sets it together with tag `V_NUM`, so a non-number value always reads 0. -/
def Value.numVal : Value → ℚ
  | .vnum n => n
  | _ => 0

/-- Reading the `strVal` field; defaults to the empty string on values
whose tag is not `V_STR`. -/
def Value.strVal : Value → String
  | .vstr s => s
  | _ => ""

/-- Reading the `boolVal` field; defaults to `false` on values whose tag
is not `V_BOOL`. -/
def Value.boolVal : Value → Bool
  | .vbool b => b
  | _ => false

/-- Tag test `type == V_NUM`. -/
def Value.isNum : Value → Bool
  | .vnum _ => true
  | _ => false

/-- Tag test `type == V_STR`. -/
def Value.isStr : Value → Bool
  | .vstr _ => true
  | _ => false

/-!
Arithmetic on the number payloads.  The standard `Rat` operations of the
library are marked irreducible, which blocks definitional evaluation of
concrete programs, so the embedding uses the equivalent `mkRat`-based
forms below; the four bridging lemmas prove they agree with the
library's `+ - * /` on every pair of rationals. -/

/-- Addition of number payloads (agrees with `+` on ℚ, see `qAdd_eq`). -/
def qAdd (a b : ℚ) : ℚ := mkRat (a.num * b.den + b.num * a.den) (a.den * b.den)

/-- Subtraction of number payloads (agrees with `-` on ℚ, see `qSub_eq`). -/
def qSub (a b : ℚ) : ℚ := mkRat (a.num * b.den - b.num * a.den) (a.den * b.den)

/-- Multiplication of number payloads (agrees with `*` on ℚ, see `qMul_eq`). -/
def qMul (a b : ℚ) : ℚ := mkRat (a.num * b.num) (a.den * b.den)

/-- Reciprocal of a number payload (agrees with `Rat.inv`, whose value
at 0 is 0). -/
def qInv (a : ℚ) : ℚ := Rat.divInt a.den a.num

/-- Division of number payloads (agrees with `/` on ℚ, see `qDiv_eq`). -/
def qDiv (a b : ℚ) : ℚ := qMul a (qInv b)

theorem qAdd_eq (a b : ℚ) : qAdd a b = a + b := (Rat.add_def' a b).symm

theorem qSub_eq (a b : ℚ) : qSub a b = a - b := (Rat.sub_def' a b).symm

theorem qMul_eq (a b : ℚ) : qMul a b = a * b := by
  rw [qMul, Rat.mul_def, Rat.normalize_eq_mkRat]

theorem qDiv_eq (a b : ℚ) : qDiv a b = a / b := by
  rw [qDiv, Rat.div_def, qMul_eq, qInv, ← Rat.inv_def]

/-- Decimal digit string of a natural number, as produced by the
num-to-text conversion. -/
def natDigits (n : Nat) : String := Nat.repr n

/-- Left-pad a digit string with zeros to width 6, mirroring the six
fractional digits `std::to_string(double)` always emits. -/
def padZeros6 (s : String) : String :=
  String.mk (List.replicate (6 - s.length) '0') ++ s

/-- Truncation of a nonnegative rational to a natural number (used only
on nonnegative inputs, where all integer-division conventions agree). -/
def ratFloorNonneg (q : ℚ) : Nat := q.num.toNat / q.den

/-- Rendering of a double by `std::to_string`: a fixed-point numeral
with exactly six fractional digits, rounded to nearest.  Modelled over
`Rat`; the claims only evaluate it at small integral values. -/
def formatFixed6 (q : ℚ) : String :=
  let a : ℚ := if q < 0 then -q else q
  let scaled : Nat := ratFloorNonneg (qAdd (qMul a 1000000) (mkRat 1 2))
  let ip : Nat := scaled / 1000000
  let fp : Nat := scaled % 1000000
  (if q < 0 ∧ scaled ≠ 0 then "-" else "") ++
    natDigits ip ++ "." ++ padZeros6 (natDigits fp)

/-- The trim `s.substr(0, s.find_last_not_of('0') + 1)` from
`Value::toString`: keep everything up to and including the last
character that is not `'0'` (empty result when every character is
`'0'`).  Note it does not remove a trailing decimal point. -/
def trimTrailingZeros (s : String) : String :=
  String.mk ((s.data.reverse.dropWhile (fun c => c = '0')).reverse)

/-- Mirror of `Value::toString`. -/
def Value.toString : Value → String
  | .vnum n => trimTrailingZeros (formatFixed6 n)
  | .vstr s => s
  | .vbool b => if b then "true" else "false"
  | .vnull => "null"
  | .vlist _ => "[Array]"
  | .vobj _ => "[Object]"
  | .vfunc _ _ _ => "[Function]"
  | .vnative _ => "[Function]"

/-- Mirror of the operator dispatch in `BinaryOpNode::eval`, applied to
the two already-evaluated operands.  The result value `res` starts as a
default (null) `Value` and each branch sets its tag and one payload
field; an operator string matching no branch (for instance `"="`, which
the parser produces for assignments) leaves `res` untouched, so the
result is null. -/
def applyBinOp (op : String) (l r : Value) : Value :=
  if op = "+" then
    if l.isStr || r.isStr then .vstr (l.toString ++ r.toString)
    else .vnum (qAdd l.numVal r.numVal)
  else if op = "-" then .vnum (qSub l.numVal r.numVal)
  else if op = "*" then .vnum (qMul l.numVal r.numVal)
  else if op = "/" then .vnum (qDiv l.numVal r.numVal)
  else if op = ">" then .vbool (decide (l.numVal > r.numVal))
  else if op = "<" then .vbool (decide (l.numVal < r.numVal))
  else if op = "==" then
    if l.isNum then .vbool (decide (l.numVal = r.numVal))
    else if l.isStr then .vbool (l.strVal == r.strVal)
    else .vbool false
  else .vnull

/-- Truthiness test of `IfNode::eval`: `truthy` starts `false`, a
Boolean contributes its `boolVal`, a Number is truthy iff nonzero, and
every other tag keeps the default `false`. -/
def truthy (v : Value) : Bool :=
  match v with
  | .vbool b => b
  | .vnum n => decide (n ≠ 0)
  | _ => false

/-- Loop-exit test of `WhileNode::eval`:
`(c->type == V_BOOL && !c->boolVal) || (c->type == V_NUM && c->numVal == 0)`.
Unlike `truthy`, a value that is neither a Boolean nor a Number never
satisfies it, so such a condition keeps the loop running. -/
def whileBreaks (v : Value) : Bool :=
  (match v with | .vbool b => !b | _ => false) ||
    (match v with | .vnum n => decide (n = 0) | _ => false)

/-- Lookup in a `map<string, shared_ptr<Value>>`: first (unique) entry
with the given key. -/
def mapGet : List (String × Value) → String → Option Value
  | [], _ => none
  | (k, v) :: rest, name => if k = name then some v else mapGet rest name

/-- Update through `vars[name] = val` on a `map`: replace the entry if
the key is present, insert it otherwise.  Keys stay unique. -/
def mapSet : List (String × Value) → String → Value → List (String × Value)
  | [], name, v => [(name, v)]
  | (k, w) :: rest, name, v =>
    if k = name then (name, v) :: rest else (k, w) :: mapSet rest name v

/-- One scope frame of the `Environment` chain: a name-to-value map plus
an optional parent frame (here an index into the frame store). -/
structure Frame where
  vars : List (String × Value)
  parent : Option Nat

/-- Mirror of `Environment::lookup`: check the current frame's map, then
recurse into the parent; `none` plays the role of the thrown
`runtime_error` (NameError).  The extra fuel argument bounds the walk;
frames are created with parents of strictly smaller index, so a fuel of
the store's size always suffices. -/
def lookupE (frames : List Frame) : Nat → Nat → String → Option Value
  | 0, _, _ => none
  | fuel + 1, e, name =>
    match frames[e]? with
    | none => none
    | some f =>
      match mapGet f.vars name with
      | some v => some v
      | none =>
        match f.parent with
        | some p => lookupE frames fuel p name
        | none => none

/-- Mirror of `Environment::assign`: if the current frame's map contains
the name, overwrite it there; otherwise recurse into the parent; `none`
plays the role of the thrown NameError when the chain is exhausted.
Returns the updated frame store on success. -/
def assignE (frames : List Frame) : Nat → Nat → String → Value → Option (List Frame)
  | 0, _, _, _ => none
  | fuel + 1, e, name, v =>
    match frames[e]? with
    | none => none
    | some f =>
      if (mapGet f.vars name).isSome then
        some (frames.set e { f with vars := mapSet f.vars name v })
      else
        match f.parent with
        | some p => assignE frames fuel p name v
        | none => none

/-- Mirror of `Environment::define`: insert or overwrite a binding in
the one frame `e` only. -/
def defineE (frames : List Frame) (e : Nat) (name : String) (v : Value) : List Frame :=
  match frames[e]? with
  | some f => frames.set e { f with vars := mapSet f.vars name v }
  | none => frames

/-- A pending `Task` of the event loop: absolute due time plus the
captured callback, which for tasks created by `setTimeout` is the user
Function value to run. -/
structure EngTask where
  due : Int
  callback : Value

/-- Global interpreter state threaded through evaluation: the frame
store (index 0 is the global environment), the pending task queue, the
lines printed so far, and the current wall-clock reading (the claims
never depend on the clock advancing during synchronous evaluation). -/
structure EngineState where
  frames : List Frame
  tasks : List EngTask
  output : List String
  now : Int

/-- Result of evaluating one node: a value, a thrown `runtime_error`
message, or fuel exhaustion (`timeout` is an artifact of the embedding,
not a behaviour of the engine). -/
inductive Outcome where
  | ok (v : Value)
  | err (msg : String)
  | timeout

/-- Result of evaluating a list of expressions (array elements or call
arguments) in order. -/
inductive OutcomeL where
  | oks (vs : List Value)
  | errL (msg : String)
  | timeoutL

/-- Left-to-right evaluation of a list of expressions, stopping at the
first error, as in the argument loops of `CallNode::eval` and
`ArrayNode::eval`.  Parametrised by the single-node evaluator. -/
def evalArgsAux (evalFn : Node → EngineState → Outcome × EngineState) :
    List Node → EngineState → OutcomeL × EngineState
  | [], st => (.oks [], st)
  | a :: as, st =>
    match evalFn a st with
    | (.ok v, st1) =>
      (match evalArgsAux evalFn as st1 with
       | (.oks vs, st2) => (.oks (v :: vs), st2)
       | r => r)
    | (.err m, st1) => (.errL m, st1)
    | (.timeout, st1) => (.timeoutL, st1)

/-- Mirror of `BlockNode::eval`: run the statements in order, tracking
the value of the last statement evaluated (`lastVal` starts as a default
null value); an error aborts the block. -/
def evalBlockAux (evalFn : Node → EngineState → Outcome × EngineState) :
    List Node → Value → EngineState → Outcome × EngineState
  | [], last, st => (.ok last, st)
  | s :: rest, _, st =>
    match evalFn s st with
    | (.ok v, st1) => evalBlockAux evalFn rest v st1
    | r => r

/-- Truncation of a double toward zero by the C-style cast
`(long long)x` in the `setTimeout` binding. -/
def truncToInt (q : ℚ) : Int := Int.tdiv q.num q.den

/-- The two native host callbacks defined in `main`.  `print` renders
each argument followed by a space and ends the line; `setTimeout`
ignores calls with fewer than two arguments or a non-Function first
argument, and otherwise enqueues a Task due at now + delay.  Both return
a null value. -/
def applyNative : NativeId → List Value → EngineState → Outcome × EngineState
  | .printFn, args, st =>
    (.ok .vnull,
     { st with output :=
         st.output ++ [String.join (args.map (fun a => a.toString ++ " ")) ++ "\n"] })
  | .setTimeoutFn, args, st =>
    match args with
    | f :: d :: _ =>
      match f with
      | .vfunc ps body cl =>
        (.ok .vnull,
         { st with tasks :=
             st.tasks ++ [{ due := st.now + truncToInt d.numVal,
                            callback := .vfunc ps body cl }] })
      | _ => (.ok .vnull, st)
    | _ => (.ok .vnull, st)

/-- Positional parameter binding of `CallNode::eval`: for each index `i`
below the parameter count, if an `i`-th argument exists, define the
parameter to it in the fresh scope; excess arguments are ignored and
unmatched parameters are left unbound. -/
def bindParams (ps : List String) (vs : List Value) : List (String × Value) :=
  (ps.zip vs).foldl (fun m pv => mapSet m pv.1 pv.2) []

/-- The recursive evaluator: one arm per `eval` override in the source.
Fuel decreases on every recursive call; a synchronous program that
terminates in the engine evaluates to the same result here for every
sufficiently large fuel. -/
def eval : Nat → Node → Nat → EngineState → Outcome × EngineState
  | 0, _, _, st => (.timeout, st)
  | fuel + 1, node, env, st =>
    match node with
    | .num v => (.ok (.vnum v), st)
    | .str s => (.ok (.vstr s), st)
    | .ident name =>
      match lookupE st.frames st.frames.length env name with
      | some v => (.ok v, st)
      | none => (.err ("Undefined variable: " ++ name), st)
    | .arr elems =>
      (match evalArgsAux (fun a st1 => eval fuel a env st1) elems st with
       | (.oks vs, st1) => (.ok (.vlist vs), st1)
       | (.errL m, st1) => (.err m, st1)
       | (.timeoutL, st1) => (.timeout, st1))
    | .obj props =>
      (match evalArgsAux (fun a st1 => eval fuel a env st1) (props.map Prod.snd) st with
       | (.oks vs, st1) => (.ok (.vobj ((props.map Prod.fst).zip vs)), st1)
       | (.errL m, st1) => (.err m, st1)
       | (.timeoutL, st1) => (.timeout, st1))
    | .binop op l r =>
      (match eval fuel l env st with
       | (.ok lv, st1) =>
         (match eval fuel r env st1 with
          | (.ok rv, st2) => (.ok (applyBinOp op lv rv), st2)
          | other => other)
       | other => other)
    | .block stmts =>
      evalBlockAux (fun s st1 => eval fuel s env st1) stmts .vnull st
    | .varDecl name init =>
      (match (match init with
              | some i => eval fuel i env st
              | none => (.ok .vnull, st)) with
       | (.ok v, st1) => (.ok v, { st1 with frames := defineE st1.frames env name v })
       | other => other)
    | .ifN c t e =>
      (match eval fuel c env st with
       | (.ok cv, st1) =>
         if truthy cv then eval fuel t env st1
         else
           match e with
           | some eb => eval fuel eb env st1
           | none => (.ok .vnull, st1)
       | other => other)
    | .whileN c b =>
      (match eval fuel c env st with
       | (.ok cv, st1) =>
         if whileBreaks cv then (.ok .vnull, st1)
         else
           match eval fuel b env st1 with
           | (.ok _, st2) => eval fuel (.whileN c b) env st2
           | other => other
       | other => other)
    | .funcDecl name ps b =>
      (.ok (.vfunc ps b env),
       { st with frames := defineE st.frames env name (.vfunc ps b env) })
    | .call callee args =>
      match lookupE st.frames st.frames.length env callee with
      | none => (.err ("Undefined variable: " ++ callee), st)
      | some f =>
        match evalArgsAux (fun a st1 => eval fuel a env st1) args st with
        | (.oks vs, st1) =>
          (match f with
           | .vnative nid => applyNative nid vs st1
           | .vfunc ps body cl =>
             eval fuel body st1.frames.length
               { st1 with frames := st1.frames ++ [⟨bindParams ps vs, some cl⟩] }
           | _ => (.err ("Not a function: " ++ callee), st1))
        | (.errL m, st1) => (.err m, st1)
        | (.timeoutL, st1) => (.timeout, st1)

/-- The synchronous batch of `main`: evaluate each parsed statement in
the global environment (frame 0) in order; a thrown error unwinds at
once to the surrounding try/catch, leaving the remaining statements
unevaluated and all state mutations so far in place. -/
def runStmts (fuel : Nat) : List Node → EngineState → Outcome × EngineState
  | [], st => (.ok .vnull, st)
  | s :: rest, st =>
    match eval fuel s 0 st with
    | (.ok _, st1) => runStmts fuel rest st1
    | r => r

/-- The global environment built in `main`, holding the two native
bindings, with empty task queue and output. -/
def initState : EngineState :=
  { frames := [⟨[("print", .vnative .printFn), ("setTimeout", .vnative .setTimeoutFn)], none⟩],
    tasks := [], output := [], now := 0 }

/-! Unfolding equations for single steps of `eval`, each holding by
definitional reduction. -/

theorem eval_while_unfold (fuel : Nat) (c b : Node) (env : Nat) (st : EngineState) :
    eval (fuel + 1) (.whileN c b) env st =
      (match eval fuel c env st with
       | (.ok cv, st1) =>
         if whileBreaks cv then (.ok .vnull, st1)
         else
           match eval fuel b env st1 with
           | (.ok _, st2) => eval fuel (.whileN c b) env st2
           | other => other
       | other => other) := rfl

theorem eval_if_unfold (fuel : Nat) (c t : Node) (e : Option Node) (env : Nat)
    (st : EngineState) :
    eval (fuel + 1) (.ifN c t e) env st =
      (match eval fuel c env st with
       | (.ok cv, st1) =>
         if truthy cv then eval fuel t env st1
         else
           match e with
           | some eb => eval fuel eb env st1
           | none => (.ok .vnull, st1)
       | other => other) := rfl

theorem eval_block_unfold (fuel : Nat) (stmts : List Node) (env : Nat) (st : EngineState) :
    eval (fuel + 1) (.block stmts) env st =
      evalBlockAux (fun s st1 => eval fuel s env st1) stmts .vnull st := rfl

theorem eval_call_unfold (fuel : Nat) (callee : String) (args : List Node) (env : Nat)
    (st : EngineState) :
    eval (fuel + 1) (.call callee args) env st =
      (match lookupE st.frames st.frames.length env callee with
       | none => (.err ("Undefined variable: " ++ callee), st)
       | some f =>
         match evalArgsAux (fun a st1 => eval fuel a env st1) args st with
         | (.oks vs, st1) =>
           (match f with
            | .vnative nid => applyNative nid vs st1
            | .vfunc ps body cl =>
              eval fuel body st1.frames.length
                { st1 with frames := st1.frames ++ [⟨bindParams ps vs, some cl⟩] }
            | _ => (.err ("Not a function: " ++ callee), st1))
         | (.errL m, st1) => (.err m, st1)
         | (.timeoutL, st1) => (.timeout, st1)) := rfl

/-! Claim C2: equality operator. -/

/-- C2 counterexample: `==` dispatches on the left operand's type only,
so the Number 0 compared to Null reads Null's default `numVal` 0 and
yields Boolean true, where the claim demands that every pairing other
than Number-Number and String-String yield Boolean false. -/
theorem C2_counterexample : applyBinOp "==" (.vnum 0) .vnull = .vbool true := rfl

/-- C2 (amended): `l == r` dispatches on the left operand only.  A
Number left operand compares its value against the right operand's
numeric payload (0 for any non-Number), a String left operand compares
its text against the right operand's string payload (empty for any
non-String), and any other left operand yields Boolean false; on
Number-Number and String-String pairs this is exactly the claimed
behaviour, but a mismatched pair with left Number 0 or left String ""
can yield true. -/
theorem C2_eq_semantics :
    (∀ n m : ℚ, applyBinOp "==" (.vnum n) (.vnum m) = .vbool (decide (n = m))) ∧
    (∀ s t : String, applyBinOp "==" (.vstr s) (.vstr t) = .vbool (s == t)) ∧
    (∀ (n : ℚ) (r : Value), applyBinOp "==" (.vnum n) r = .vbool (decide (n = r.numVal))) ∧
    (∀ (s : String) (r : Value), applyBinOp "==" (.vstr s) r = .vbool (s == r.strVal)) ∧
    (∀ r : Value, applyBinOp "==" .vnull r = .vbool false) ∧
    (∀ (b : Bool) (r : Value), applyBinOp "==" (.vbool b) r = .vbool false) ∧
    (∀ (l : List Value) (r : Value), applyBinOp "==" (.vlist l) r = .vbool false) ∧
    (∀ (p : List (String × Value)) (r : Value), applyBinOp "==" (.vobj p) r = .vbool false) ∧
    (∀ (ps : List String) (b : Node) (c : Nat) (r : Value),
      applyBinOp "==" (.vfunc ps b c) r = .vbool false) ∧
    (∀ (i : NativeId) (r : Value), applyBinOp "==" (.vnative i) r = .vbool false) :=
  ⟨fun _ _ => rfl, fun _ _ => rfl, fun _ _ => rfl, fun _ _ => rfl, fun _ => rfl,
   fun _ _ => rfl, fun _ _ => rfl, fun _ _ => rfl, fun _ _ _ _ => rfl, fun _ _ => rfl⟩

/-! Claim C7: `- * / > <` and operand types. -/

/-- C7 counterexample: the String "a" minus the Number 5 does not fail;
it evaluates to the Number -5, because the subtraction branch reads the
operands' `numVal` fields (0 for the String) without any type check. -/
theorem C7_counterexample :
    eval 3 (.binop "-" (.str "a") (.num 5)) 0 initState = (.ok (.vnum (-5)), initState) := rfl

/-- C7 (amended): the operators `-`, `*`, `/`, `>`, `<` perform no type
check at all: each reads the numeric payload of both operands (0 for a
value that is not a Number) and always produces a value — a Number for
the arithmetic operators and a Boolean for the comparisons — never an
error, whatever the operand types. -/
theorem C7_untyped_arithmetic :
    (∀ l r : Value, applyBinOp "-" l r = .vnum (l.numVal - r.numVal)) ∧
    (∀ l r : Value, applyBinOp "*" l r = .vnum (l.numVal * r.numVal)) ∧
    (∀ l r : Value, applyBinOp "/" l r = .vnum (l.numVal / r.numVal)) ∧
    (∀ l r : Value, applyBinOp ">" l r = .vbool (decide (l.numVal > r.numVal))) ∧
    (∀ l r : Value, applyBinOp "<" l r = .vbool (decide (l.numVal < r.numVal))) := by
  refine ⟨fun l r => ?_, fun l r => ?_, fun l r => ?_, fun l r => rfl, fun l r => rfl⟩
  · simp [applyBinOp, qSub_eq]
  · simp [applyBinOp, qMul_eq]
  · simp [applyBinOp, qDiv_eq]

/-! Claim C4: the binary `+` operator. -/

/-- C4: `+` concatenates the operands' text renderings when either
operand is a String and adds numeric payloads otherwise, exactly as
claimed — but the claimed instance fails on the rendering: `"a" + 1`
evaluates to the String "a1." (not "a1"), because `Value::toString`
trims only the trailing zeros of `to_string(1.0) = "1.000000"` and
keeps the decimal point.  `1 + 2` does evaluate to the Number 3. -/
theorem C4_plus_behaviour :
    (eval 3 (.binop "+" (.str "a") (.num 1)) 0 initState).1 = .ok (.vstr "a1.") ∧
    (eval 3 (.binop "+" (.num 1) (.num 2)) 0 initState).1 = .ok (.vnum 3) ∧
    (∀ (s : String) (r : Value), applyBinOp "+" (.vstr s) r = .vstr (s ++ r.toString)) ∧
    (∀ (l : Value) (s : String), applyBinOp "+" l (.vstr s) = .vstr (l.toString ++ s)) ∧
    (∀ l r : Value, l.isStr = false → r.isStr = false →
      applyBinOp "+" l r = .vnum (l.numVal + r.numVal)) := by
  refine ⟨rfl, rfl, fun s r => rfl, fun l s => ?_, fun l r h1 h2 => ?_⟩
  · cases l <;> rfl
  · simp [applyBinOp, h1, h2, qAdd_eq]

/-- C4 witness: the both-non-String branch of the `+` rule applied to
the Number 2 and Null. -/
theorem C4_plus_behaviour_witness :
    applyBinOp "+" (.vnum 2) .vnull = .vnum 2 := by
  have h := C4_plus_behaviour.2.2.2.2 (.vnum 2) .vnull rfl rfl
  simpa [Value.numVal] using h

/-! Claim C1: the scenario program
`var x = 10; function add(n){ x = x + n; } add(5); print(x);`. -/

/-- AST of the C1 scenario program as the grammar denotes it: the
assignment statement parses through `parseExpression` into a
`BinaryOpNode` with operator "=". -/
def progC1 : List Node :=
  [.varDecl "x" (some (.num 10)),
   .funcDecl "add" ["n"]
     (.block [.binop "=" (.ident "x") (.binop "+" (.ident "x") (.ident "n"))]),
   .call "add" [.num 5],
   .call "print" [.ident "x"]]

/-- C1: what the engine actually does on the scenario program.  The
batch completes without error, but the line printed is "10. " — not
"15" — because `BinaryOpNode::eval` has no "=" branch (it never calls
`Environment::assign`, so `x = x + n` evaluates both sides, discards
them and yields null, leaving x bound to 10), and `Value::toString`
renders the Number 10 as "10." with a trailing decimal point. -/
theorem C1_actual_behaviour :
    (runStmts 12 progC1 initState).1 = .ok .vnull ∧
    (runStmts 12 progC1 initState).2.output = ["10. \n"] ∧
    lookupE (runStmts 12 progC1 initState).2.frames
      (runStmts 12 progC1 initState).2.frames.length 0 "x" = some (.vnum 10) :=
  ⟨rfl, rfl, rfl⟩

/-! Claim C3: While truthiness. -/

/-- While loop whose condition is a String, with a body that defines a
variable: used to exhibit that While does not follow the If truthiness
rule. -/
def whileStrProg : Node := .whileN (.str "a") (.block [.varDecl "y" (some (.num 1))])

/-- C3 counterexample: a While whose condition is a String (neither
Boolean nor Number) does evaluate its body — after running out of any
finite fuel the loop variable `y` has been defined in the environment —
and the loop never terminates, where the claim demands zero body
evaluations and termination. -/
theorem C3_counterexample :
    (eval 10 whileStrProg 0 initState).1 = .timeout ∧
    lookupE (eval 10 whileStrProg 0 initState).2.frames 1 0 "y" = some (.vnum 1) :=
  ⟨rfl, rfl⟩

/-- With a String condition and an empty body, the While evaluation
exhausts every fuel: the loop never terminates, because the exit test
`(Bool ∧ false) ∨ (Number ∧ zero)` can never hold of a String. -/
theorem whileStr_timeout (s : String) :
    ∀ (n env : Nat) (st : EngineState),
      (eval n (.whileN (.str s) (.block [])) env st).1 = .timeout := by
  intro n
  induction n with
  | zero => intro env st; rfl
  | succ m ih =>
    intro env st
    cases m with
    | zero => rfl
    | succ k => exact ih env st

/-- C3 (amended): While does not use the If truthiness rule.  Its exit
test holds exactly of Boolean false and Number 0; a condition value of
any other kind — including Null, String, List, Map, Function,
NativeFunction, which If treats as not truthy — keeps the loop running,
so the body is evaluated and a While whose condition stays such a value
never terminates. -/
theorem C3_while_truthiness :
    (∀ (fuel : Nat) (c b : Node) (env : Nat) (st : EngineState) (v : Value)
        (st' : EngineState),
        eval fuel c env st = (.ok v, st') → whileBreaks v = true →
        eval (fuel + 1) (.whileN c b) env st = (.ok .vnull, st')) ∧
    (∀ v : Value, whileBreaks v = true ↔ (v = .vbool false ∨ v = .vnum 0)) ∧
    (whileBreaks .vnull = false ∧ truthy .vnull = false) ∧
    (∀ s, whileBreaks (.vstr s) = false ∧ truthy (.vstr s) = false) ∧
    (∀ l, whileBreaks (.vlist l) = false ∧ truthy (.vlist l) = false) ∧
    (∀ p, whileBreaks (.vobj p) = false ∧ truthy (.vobj p) = false) ∧
    (∀ (ps : List String) (b : Node) (c : Nat),
        whileBreaks (.vfunc ps b c) = false ∧ truthy (.vfunc ps b c) = false) ∧
    (∀ i, whileBreaks (.vnative i) = false ∧ truthy (.vnative i) = false) ∧
    (∀ (s : String) (env : Nat) (st : EngineState) (n : Nat),
        (eval n (.whileN (.str s) (.block [])) env st).1 = .timeout) := by
  refine ⟨?_, ?_, ⟨rfl, rfl⟩, fun s => ⟨rfl, rfl⟩, fun l => ⟨rfl, rfl⟩, fun p => ⟨rfl, rfl⟩,
    fun ps b c => ⟨rfl, rfl⟩, fun i => ⟨rfl, rfl⟩,
    fun s env st n => whileStr_timeout s n env st⟩
  · intro fuel c b env st v st' h1 h2
    rw [eval_while_unfold, h1]
    simp [h2]
  · intro v
    cases v <;> simp [whileBreaks]

/-- C3 witness: a While whose condition evaluates to the Number 0 stops
at once with the null value. -/
theorem C3_while_truthiness_witness :
    eval 2 (.whileN (.num 0) (.block [])) 0 initState = (.ok .vnull, initState) :=
  C3_while_truthiness.1 1 (.num 0) (.block []) 0 initState (.vnum 0) initState rfl rfl

/-! Claim C10: statements that always yield null. -/

/-- Splitting a block's statement list: running `l1 ++ l2` runs `l1`
first and, if it succeeded, continues with `l2` from the value and
state `l1` reached. -/
theorem evalBlockAux_append (f : Node → EngineState → Outcome × EngineState)
    (l1 l2 : List Node) :
    ∀ (last : Value) (st : EngineState),
      evalBlockAux f (l1 ++ l2) last st =
        (match evalBlockAux f l1 last st with
         | (.ok v, st1) => evalBlockAux f l2 v st1
         | r => r) := by
  induction l1 with
  | nil => intro last st; rfl
  | cons s rest ih =>
    intro last st
    rcases hfs : f s st with ⟨o, st1⟩
    simp only [List.cons_append, evalBlockAux, hfs]
    cases o with
    | ok v => exact ih v st1
    | err m => rfl
    | timeout => rfl

/-- A While statement can only ever produce the null value: every exit
path of `WhileNode::eval` returns a fresh default `Value`. -/
theorem while_ok_null :
    ∀ (fuel : Nat) (c b : Node) (env : Nat) (st : EngineState) (v : Value)
      (st' : EngineState),
      eval fuel (.whileN c b) env st = (.ok v, st') → v = .vnull := by
  intro fuel
  induction fuel with
  | zero =>
    intro c b env st v st' h
    exact absurd (congrArg Prod.fst h) (by simp [eval])
  | succ m ih =>
    intro c b env st v st' h
    rw [eval_while_unfold] at h
    rcases hc : eval m c env st with ⟨oc, st1⟩
    rw [hc] at h
    cases oc with
    | ok cv =>
      cases hb : whileBreaks cv with
      | true =>
        simp only [hb, if_true] at h
        exact ((Outcome.ok.injEq _ _).mp ((Prod.mk.injEq _ _ _ _).mp h).1).symm
      | false =>
        simp only [hb, Bool.false_eq_true, if_false] at h
        rcases hbody : eval m b env st1 with ⟨ob, st2⟩
        rw [hbody] at h
        cases ob with
        | ok bv => exact ih c b env st2 v st' h
        | err m2 => exact absurd (congrArg Prod.fst h) (by simp)
        | timeout => exact absurd (congrArg Prod.fst h) (by simp)
    | err m2 => exact absurd (congrArg Prod.fst h) (by simp)
    | timeout => exact absurd (congrArg Prod.fst h) (by simp)

/-- C10: an empty Block yields null (the initial `lastVal`); an If whose
condition is not truthy and which has no else branch yields null; a
While, whenever it terminates normally, yields null; and a Block — in
particular a function body — whose last statement is such a While yields
null. -/
theorem C10_null_results :
    (∀ (fuel env : Nat) (st : EngineState),
        eval (fuel + 1) (.block []) env st = (.ok .vnull, st)) ∧
    (∀ (fuel : Nat) (c t : Node) (env : Nat) (st : EngineState) (v : Value)
        (st' : EngineState),
        eval fuel c env st = (.ok v, st') → truthy v = false →
        eval (fuel + 1) (.ifN c t none) env st = (.ok .vnull, st')) ∧
    (∀ (fuel : Nat) (c b : Node) (env : Nat) (st : EngineState) (v : Value)
        (st' : EngineState),
        eval fuel (.whileN c b) env st = (.ok v, st') → v = .vnull) ∧
    (∀ (fuel : Nat) (stmts : List Node) (c b : Node) (env : Nat) (st : EngineState)
        (v : Value) (st' : EngineState),
        eval (fuel + 1) (.block (stmts ++ [.whileN c b])) env st = (.ok v, st') →
        v = .vnull) := by
  refine ⟨fun fuel env st => rfl, ?_, while_ok_null, ?_⟩
  · intro fuel c t env st v st' h1 h2
    rw [eval_if_unfold, h1]
    simp [h2]
  · intro fuel stmts c b env st v st' h
    rw [eval_block_unfold, evalBlockAux_append] at h
    rcases h1 : evalBlockAux (fun s st1 => eval fuel s env st1) stmts .vnull st with ⟨o1, st1⟩
    rw [h1] at h
    cases o1 with
    | ok v1 =>
      simp only [evalBlockAux] at h
      rcases hw : eval fuel (.whileN c b) env st1 with ⟨ow, st2⟩
      rw [hw] at h
      cases ow with
      | ok wv =>
        simp only [evalBlockAux] at h
        have hv : wv = v := ((Outcome.ok.injEq _ _).mp ((Prod.mk.injEq _ _ _ _).mp h).1)
        exact hv ▸ while_ok_null fuel c b env st1 wv st2 hw
      | err m2 => exact absurd (congrArg Prod.fst h) (by simp)
      | timeout => exact absurd (congrArg Prod.fst h) (by simp)
    | err m2 => exact absurd (congrArg Prod.fst h) (by simp)
    | timeout => exact absurd (congrArg Prod.fst h) (by simp)

/-- C10 witness: an If on the Number 0 with no else yields null, and the
whole claim's conjunction instantiated at concrete inputs. -/
theorem C10_null_results_witness :
    eval 2 (.ifN (.num 0) (.num 7) none) 0 initState = (.ok .vnull, initState) :=
  C10_null_results.2.1 1 (.num 0) (.num 7) 0 initState (.vnum 0) initState rfl rfl

/-! Claim C5: calls, closures and parameter binding. -/

/-- Declarations for the C5 counterexample: a global `n` and a function
whose parameter shadows it. -/
def declsC5 : List Node :=
  [.varDecl "n" (some (.num 99)),
   .funcDecl "f" ["n"] (.block [.ident "n"])]

/-- C5 counterexample: calling `f` with no argument leaves its parameter
`n` unbound in the call frame, but the subsequent lookup of `n` does not
raise a NameError as the claim states — it falls through to the closure
chain and finds the global `n`, so `f()` evaluates to 99. -/
theorem C5_counterexample :
    (eval 10 (.call "f" []) 0 (runStmts 10 declsC5 initState).2).1 = .ok (.vnum 99) := rfl

/-- Declarations for the closure-scoping check: `g` reads the free
variable `a`; `h` declares a local `a` and calls `g`. -/
def declsClosure : List Node :=
  [.varDecl "a" (some (.num 1)),
   .funcDecl "g" [] (.block [.ident "a"]),
   .funcDecl "h" [] (.block [.varDecl "a" (some (.num 2)), .call "g" []])]

/-- Declaration of a one-parameter function for the excess/missing
argument checks. -/
def declsExcess : List Node := [.funcDecl "k" ["p"] (.block [.ident "p"])]

/-- Declaration binding a plain Number, for the non-function-call
check. -/
def declsNonFunc : List Node := [.varDecl "z" (some (.num 3))]

/-- Declaration of a two-parameter function whose arguments are `print`
calls, for the evaluation-order check. -/
def declsOrder : List Node := [.funcDecl "t" ["u", "v"] (.block [.ident "v"])]

/-- C5 (amended): calling a user Function evaluates the arguments
left-to-right in the caller's environment and then evaluates the body in
a fresh frame whose parent is the Function's captured closure frame (not
the call-site frame), with parameters bound positionally and excess
arguments ignored; a parameter without a matching argument is left
unbound in the new frame, so a later lookup of it falls back to the
closure chain and raises NameError only when no enclosing frame binds
the name; calling a name bound to a non-function value raises an
invocation error. -/
theorem C5_call_semantics :
    (∀ (fuel : Nat) (callee : String) (args : List Node) (env : Nat) (st : EngineState)
        (ps : List String) (body : Node) (cl : Nat) (vs : List Value) (st1 : EngineState),
        lookupE st.frames st.frames.length env callee = some (.vfunc ps body cl) →
        evalArgsAux (fun a st2 => eval fuel a env st2) args st = (.oks vs, st1) →
        eval (fuel + 1) (.call callee args) env st =
          eval fuel body st1.frames.length
            { st1 with frames := st1.frames ++ [⟨bindParams ps vs, some cl⟩] }) ∧
    ((eval 12 (.call "h" []) 0 (runStmts 10 declsClosure initState).2).1 = .ok (.vnum 1)) ∧
    ((eval 10 (.call "k" [.num 7, .num 8, .num 9]) 0
        (runStmts 10 declsExcess initState).2).1 = .ok (.vnum 7)) ∧
    ((eval 10 (.call "k" []) 0 (runStmts 10 declsExcess initState).2).1 =
        .err "Undefined variable: p") ∧
    ((eval 10 (.call "z" []) 0 (runStmts 10 declsNonFunc initState).2).1 =
        .err "Not a function: z") ∧
    ((eval 12 (.call "t" [.call "print" [.str "L"], .call "print" [.str "R"]]) 0
        (runStmts 10 declsOrder initState).2).2.output = ["L \n", "R \n"]) := by
  refine ⟨?_, rfl, rfl, rfl, rfl, rfl⟩
  intro fuel callee args env st ps body cl vs st1 h1 h2
  rw [eval_call_unfold, h1, h2]

/-- C5 witness: the general user-function-call rule applied to the
no-argument call of `k`. -/
theorem C5_call_semantics_witness :
    eval 3 (.call "k" []) 0 (runStmts 10 declsExcess initState).2 =
      eval 2 (.block [.ident "p"]) (runStmts 10 declsExcess initState).2.frames.length
        { (runStmts 10 declsExcess initState).2 with
            frames := (runStmts 10 declsExcess initState).2.frames ++
              [⟨bindParams ["p"] [], some 0⟩] } :=
  C5_call_semantics.1 2 "k" [] 0 (runStmts 10 declsExcess initState).2 ["p"]
    (.block [.ident "p"]) 0 [] (runStmts 10 declsExcess initState).2 rfl rfl

/-! Claim C6: lookup and assign over the scope chain. -/

/-- The list of frame indices walked from frame `e` outwards, innermost
first, ending at the root (or when the fuel runs out). -/
def chainE (frames : List Frame) : Nat → Nat → List Nat
  | 0, _ => []
  | fuel + 1, e =>
    match frames[e]? with
    | none => []
    | some f =>
      e :: (match f.parent with
            | some p => chainE frames fuel p
            | none => [])

/-- The binding of `name` held directly by frame `i`, if any. -/
def bindsAt (frames : List Frame) (name : String) (i : Nat) : Option Value :=
  (frames[i]?).bind (fun f => mapGet f.vars name)

/-- Overwriting the binding of `name` in the single frame `i`. -/
def setVarAt (frames : List Frame) (i : Nat) (name : String) (v : Value) : List Frame :=
  match frames[i]? with
  | some f => frames.set i { f with vars := mapSet f.vars name v }
  | none => frames

/-- Lookup walks the chain innermost to outermost and returns the first
frame's binding. -/
theorem lookupE_chain (frames : List Frame) :
    ∀ (fuel e : Nat) (name : String),
      lookupE frames fuel e name =
        (chainE frames fuel e).findSome? (bindsAt frames name) := by
  intro fuel
  induction fuel with
  | zero => intro e name; rfl
  | succ m ih =>
    intro e name
    simp only [lookupE, chainE]
    cases hf : frames[e]? with
    | none => rfl
    | some f =>
      cases hg : mapGet f.vars name with
      | some v => simp [List.findSome?_cons, bindsAt, hf, hg]
      | none =>
        cases hp : f.parent with
        | some p => simp [List.findSome?_cons, bindsAt, hf, hg, hp, ih p name]
        | none => simp [List.findSome?_cons, bindsAt, hf, hg, hp]

/-- Assign walks the same chain and overwrites the binding in the first
frame that has one, failing when none does. -/
theorem assignE_chain (frames : List Frame) :
    ∀ (fuel e : Nat) (name : String) (v : Value),
      assignE frames fuel e name v =
        ((chainE frames fuel e).find? (fun i => (bindsAt frames name i).isSome)).map
          (fun i => setVarAt frames i name v) := by
  intro fuel
  induction fuel with
  | zero => intro e name v; rfl
  | succ m ih =>
    intro e name v
    simp only [assignE, chainE]
    cases hf : frames[e]? with
    | none => rfl
    | some f =>
      cases hg : mapGet f.vars name with
      | some w =>
        simp [List.find?_cons, bindsAt, hf, hg, setVarAt]
      | none =>
        cases hp : f.parent with
        | some p => simp [List.find?_cons, bindsAt, hf, hg, hp, ih p name v]
        | none => simp [List.find?_cons, bindsAt, hf, hg, hp]

/-- Overwriting an existing key leaves the key list of a variable map
unchanged. -/
theorem mapSet_keys (name : String) (v : Value) :
    ∀ (l : List (String × Value)), (mapGet l name).isSome = true →
      (mapSet l name v).map Prod.fst = l.map Prod.fst := by
  intro l
  induction l with
  | nil => intro h; simp [mapGet] at h
  | cons kv rest ih =>
    intro h
    rcases kv with ⟨k, w⟩
    by_cases hk : k = name
    · subst hk; simp [mapSet]
    · simp only [mapSet, if_neg hk, List.map_cons]
      rw [ih (by simpa [mapGet, hk] using h)]

/-- Setting a list entry to the value it already holds is the identity. -/
theorem list_set_same {α : Type} : ∀ (l : List α) (i : Nat) (a : α),
    l[i]? = some a → l.set i a = l := by
  intro l
  induction l with
  | nil => intro i a h; simp at h
  | cons x rest ih =>
    intro i a h
    cases i with
    | zero => simp at h; simp [h]
    | succ j => simp at h; simp [ih j a h]

/-- Mapping a function over a list commutes with setting one entry. -/
theorem map_set_comm {α β : Type} (f : α → β) : ∀ (l : List α) (i : Nat) (a : α),
    (l.set i a).map f = (l.map f).set i (f a) := by
  intro l
  induction l with
  | nil => intro i a; simp
  | cons x rest ih =>
    intro i a
    cases i with
    | zero => simp
    | succ j => simp [ih j a]

/-- C6: `lookup` walks the frames innermost to outermost, returning the
innermost binding and failing with NameError when the chain is
exhausted; `assign` walks the same chain, overwrites the binding in the
first frame that already has the name, fails with NameError when no
frame does, and never creates a binding: the key list of every frame is
unchanged by a successful assign. -/
theorem C6_scope_chain :
    (∀ (frames : List Frame) (fuel e : Nat) (name : String),
        lookupE frames fuel e name =
          (chainE frames fuel e).findSome? (bindsAt frames name)) ∧
    (∀ (frames : List Frame) (fuel e : Nat) (name : String) (v : Value),
        assignE frames fuel e name v =
          ((chainE frames fuel e).find? (fun i => (bindsAt frames name i).isSome)).map
            (fun i => setVarAt frames i name v)) ∧
    (∀ (frames : List Frame) (fuel e : Nat) (name : String) (v : Value)
        (frames' : List Frame),
        assignE frames fuel e name v = some frames' →
        frames'.map (fun f => f.vars.map Prod.fst) =
          frames.map (fun f => f.vars.map Prod.fst)) := by
  refine ⟨fun frames fuel e name => lookupE_chain frames fuel e name,
    fun frames fuel e name v => assignE_chain frames fuel e name v, ?_⟩
  intro frames fuel e name v frames' h
  rw [assignE_chain] at h
  rcases hi : (chainE frames fuel e).find? (fun i => (bindsAt frames name i).isSome)
    with _ | i
  · rw [hi] at h; simp at h
  · rw [hi] at h
    have hP : (bindsAt frames name i).isSome = true := by
      simpa using List.find?_some hi
    have hfr : frames' = setVarAt frames i name v := by
      simpa using h.symm
    rcases hf : frames[i]? with _ | f
    · rw [bindsAt, hf] at hP; simp at hP
    · have hg : (mapGet f.vars name).isSome = true := by
        rw [bindsAt, hf] at hP; simpa using hP
      have hset : setVarAt frames i name v =
          frames.set i { f with vars := mapSet f.vars name v } := by
        rw [setVarAt, hf]
      rw [hfr, hset, map_set_comm]
      have hkeys : (mapSet f.vars name v).map Prod.fst = f.vars.map Prod.fst :=
        mapSet_keys name v f.vars hg
      have hgf : (frames.map (fun fr => fr.vars.map Prod.fst))[i]? =
          some (({ f with vars := mapSet f.vars name v } : Frame).vars.map Prod.fst) := by
        rw [List.getElem?_map, hf]
        simp [hkeys]
      exact list_set_same _ i _ hgf

/-- A one-frame store used in the C6 witness. -/
def framesW : List Frame := [⟨[("x", .vnum 1)], none⟩]

/-- C6 witness: a successful assign on a concrete one-frame store
preserves every frame's key list. -/
theorem C6_scope_chain_witness :
    ([⟨[("x", Value.vnum 2)], none⟩] : List Frame).map (fun f => f.vars.map Prod.fst) =
      framesW.map (fun f => f.vars.map Prod.fst) :=
  C6_scope_chain.2.2 framesW 1 0 "x" (.vnum 2) [⟨[("x", .vnum 2)], none⟩] rfl

/-! Claim C9: error propagation through a synchronous batch. -/

/-- C9: if the statements run so far succeeded and the next statement
throws, the whole batch evaluates to that error with the state the
failing statement left behind: no later statement is evaluated (the
result does not depend on `post`), and every side effect committed
before the error — bindings defined and Tasks enqueued, all recorded in
the returned state — stays in place.  The surrounding try/catch in
`main` then reports the message without terminating the process. -/
theorem C9_error_propagation :
    ∀ (fuel : Nat) (pre : List Node) (s : Node) (post : List Node)
      (st st1 st2 : EngineState) (v : Value) (e : String),
      runStmts fuel pre st = (.ok v, st1) →
      eval fuel s 0 st1 = (.err e, st2) →
      runStmts fuel (pre ++ s :: post) st = (.err e, st2) := by
  intro fuel pre
  induction pre with
  | nil =>
    intro s post st st1 st2 v e h1 h2
    have hst : st = st1 := ((Prod.mk.injEq _ _ _ _).mp h1).2
    subst hst
    simp only [List.nil_append, runStmts, h2]
  | cons p rest ih =>
    intro s post st st1 st2 v e h1 h2
    simp only [runStmts] at h1
    rcases hp : eval fuel p 0 st with ⟨op, stp⟩
    rw [hp] at h1
    cases op with
    | ok pv =>
      simp only [List.cons_append, runStmts, hp]
      exact ih s post stp st1 st2 v e h1 h2
    | err m2 => exact absurd (congrArg Prod.fst h1) (by simp)
    | timeout => exact absurd (congrArg Prod.fst h1) (by simp)

/-- Successful statements preceding the C9 witness error: a variable
definition, a function declaration, and a `setTimeout` call that
enqueues a Task. -/
def preC9 : List Node :=
  [.varDecl "a" (some (.num 1)),
   .funcDecl "w" [] (.block []),
   .call "setTimeout" [.ident "w", .num 5]]

/-- The state after the successful part of the C9 witness batch. -/
def stC9 : EngineState := (runStmts 10 preC9 initState).2

/-- C9 witness: reading the undeclared `zzz` aborts the batch — the
trailing declaration of `b` never runs — while the binding of `a` and
the Task enqueued by `setTimeout` survive in the returned state. -/
theorem C9_error_propagation_witness :
    runStmts 10 (preC9 ++ .ident "zzz" :: [.varDecl "b" (some (.num 2))]) initState =
      (.err "Undefined variable: zzz", stC9) ∧
    stC9.tasks.length = 1 ∧
    lookupE stC9.frames stC9.frames.length 0 "a" = some (.vnum 1) ∧
    lookupE stC9.frames stC9.frames.length 0 "b" = none :=
  ⟨C9_error_propagation 10 preC9 (.ident "zzz") [.varDecl "b" (some (.num 2))]
      initState stC9 stC9 .vnull "Undefined variable: zzz" rfl rfl, rfl, rfl, rfl⟩

/-! Claim C8: the event loop of `main`.

The scan loop reads the wall clock once per sweep, fires every queued
task whose due time has elapsed (erasing it), keeps the rest, and
repeats — sleeping briefly when nothing was ready — until the queue is
empty.  The callback a fired task runs is a closure evaluating a user
function body, whose only effect on the queue is to push new tasks at
its end through `setTimeout`; the model abstracts that effect into a
`spawn` function and the wall clock into a per-sweep reading, keeping
the queue discipline of the source exactly. -/

/-- A pending task as the event loop sees it: absolute due time plus an
identifier standing for its captured callback. -/
structure SchedTask where
  due : Int
  cb : Nat

/-- One sweep of the scan loop: walk the queue left to right with the
time reading `now` sampled at the sweep's start; a task whose due time
has elapsed fires (the tasks its callback spawns join the yet-unvisited
tail, as `push_back` appends them past the iterator) and is erased,
any other task is kept; `ran` records whether the sweep fired anything.
The fuel bounds the walk, since firing keeps extending it; `none` means
the sweep was cut short (behaviour the real loop would exhibit as
nontermination inside one sweep, not as a result). -/
def sweepGo (spawn : SchedTask → List SchedTask) (now : Int) :
    Nat → List SchedTask → List SchedTask → List SchedTask → Bool →
    Option (List SchedTask × List SchedTask × Bool)
  | 0, _, _, _, _ => none
  | _ + 1, kept, fired, [], ran => some (kept, fired, ran)
  | fuel + 1, kept, fired, t :: rest, ran =>
    if t.due ≤ now then sweepGo spawn now fuel kept (fired ++ [t]) (rest ++ spawn t) true
    else sweepGo spawn now fuel (kept ++ [t]) fired rest ran

/-- The outer `while (!taskQueue.empty())` loop: terminate exactly when
the pending queue is empty, otherwise sample the clock, sweep, and
rescan what was kept.  Returns the log of fired tasks, each paired with
the sampled time of the sweep that fired it; `none` is fuel exhaustion
(the embedding's rendering of an endless loop). -/
def eventLoop (spawn : SchedTask → List SchedTask) (clock : Nat → Int) (sfuel : Nat) :
    Nat → Nat → List SchedTask → Option (List (Int × SchedTask))
  | 0, _, _ => none
  | fuel + 1, i, q =>
    if q.isEmpty then some []
    else
      match sweepGo spawn (clock i) sfuel [] [] q false with
      | none => none
      | some (kept, fired, _) =>
        match eventLoop spawn clock sfuel fuel (i + 1) kept with
        | none => none
        | some log => some (fired.map (fun t => (clock i, t)) ++ log)

/-- What one completed sweep does: the newly fired tasks all had their
due time elapsed at the sampled `now`, and together with the kept tasks
they account exactly (as a multiset) for the visited queue plus
everything the fired callbacks spawned — each visited task is fired or
kept, never both, never twice. -/
theorem sweepGo_spec (spawn : SchedTask → List SchedTask) (now : Int) :
    ∀ (fuel : Nat) (kept fired toVisit : List SchedTask) (ran : Bool)
      (K F : List SchedTask) (r : Bool),
      sweepGo spawn now fuel kept fired toVisit ran = some (K, F, r) →
      ∃ ext, F = fired ++ ext ∧ (∀ t ∈ ext, t.due ≤ now) ∧
        List.Perm (K ++ ext) (kept ++ toVisit ++ ext.flatMap spawn) := by
  intro fuel
  induction fuel with
  | zero =>
    intro kept fired toVisit ran K F r h
    exact absurd h (by simp [sweepGo])
  | succ m ih =>
    intro kept fired toVisit ran K F r h
    cases toVisit with
    | nil =>
      simp only [sweepGo, Option.some.injEq] at h
      injection h with h1 h23
      injection h23 with h2 h3
      subst h1; subst h2
      exact ⟨[], by simp, by simp, by simp⟩
    | cons t rest =>
      simp only [sweepGo] at h
      by_cases hd : t.due ≤ now
      · rw [if_pos hd] at h
        rcases ih kept (fired ++ [t]) (rest ++ spawn t) true K F r h with
          ⟨ext1, hF, hdue, hperm⟩
        refine ⟨t :: ext1, by simp [hF], ?_, ?_⟩
        · intro u hu
          rcases List.mem_cons.mp hu with rfl | hu1
          · exact hd
          · exact hdue u hu1
        · have hperm2 : List.Perm (K ++ ext1)
              (kept ++ (rest ++ spawn t ++ ext1.flatMap spawn)) := by
            simpa [List.append_assoc] using hperm
          have e1 : kept ++ (t :: rest) ++ (t :: ext1).flatMap spawn =
              kept ++ t :: (rest ++ spawn t ++ ext1.flatMap spawn) := by
            simp [List.append_assoc]
          rw [e1]
          exact List.Perm.trans List.perm_middle
            (List.Perm.trans (hperm2.cons t) List.perm_middle.symm)
      · rw [if_neg hd] at h
        rcases ih (kept ++ [t]) fired rest ran K F r h with ⟨ext, hF, hdue, hperm⟩
        refine ⟨ext, hF, hdue, ?_⟩
        have e2 : kept ++ (t :: rest) ++ ext.flatMap spawn =
            (kept ++ [t]) ++ rest ++ ext.flatMap spawn := by
          simp [List.append_assoc]
        rw [e2]
        exact hperm

/-- No task ever fires before its due time: every entry of the fired
log satisfies due ≤ sampled time. -/
theorem eventLoop_fired_due (spawn : SchedTask → List SchedTask) (clock : Nat → Int)
    (sfuel : Nat) :
    ∀ (fuel i : Nat) (q : List SchedTask) (log : List (Int × SchedTask)),
      eventLoop spawn clock sfuel fuel i q = some log →
      ∀ p ∈ log, p.2.due ≤ p.1 := by
  intro fuel
  induction fuel with
  | zero =>
    intro i q log h
    exact absurd h (by simp [eventLoop])
  | succ m ih =>
    intro i q log h
    simp only [eventLoop] at h
    cases hq : q.isEmpty with
    | true =>
      rw [hq] at h
      simp only [if_true] at h
      simp only [Option.some.injEq] at h
      subst h
      intro p hp
      simp at hp
    | false =>
      rw [hq] at h
      simp only [Bool.false_eq_true, if_false] at h
      rcases hs : sweepGo spawn (clock i) sfuel [] [] q false with _ | ⟨K, F, r⟩
      · simp only [hs] at h
        simp at h
      · simp only [hs] at h
        rcases hl : eventLoop spawn clock sfuel m (i + 1) K with _ | log2
        · simp only [hl] at h
          simp at h
        · simp only [hl, Option.some.injEq] at h
          subst h
          intro p hp
          rcases List.mem_append.mp hp with hp1 | hp2
          · rcases List.mem_map.mp hp1 with ⟨t, ht, rfl⟩
            rcases sweepGo_spec spawn (clock i) sfuel [] [] q false K F r hs with
              ⟨ext, hF, hdue, _⟩
            exact hdue t (by simpa [hF] using ht)
          · exact ih (i + 1) K log2 hl p hp2

/-- Multiset balance of a terminating run: the tasks fired over the
whole loop are exactly the initially pending ones plus everything the
fired callbacks spawned — each pending task fires exactly once and is
then gone, none is lost, and the loop cannot have stopped while any
remained. -/
theorem eventLoop_balance (spawn : SchedTask → List SchedTask) (clock : Nat → Int)
    (sfuel : Nat) :
    ∀ (fuel i : Nat) (q : List SchedTask) (log : List (Int × SchedTask)),
      eventLoop spawn clock sfuel fuel i q = some log →
      List.Perm (log.map Prod.snd) (q ++ (log.map Prod.snd).flatMap spawn) := by
  intro fuel
  induction fuel with
  | zero =>
    intro i q log h
    exact absurd h (by simp [eventLoop])
  | succ m ih =>
    intro i q log h
    simp only [eventLoop] at h
    cases hq : q.isEmpty with
    | true =>
      rw [hq] at h
      simp only [if_true] at h
      simp only [Option.some.injEq] at h
      subst h
      simp [List.isEmpty_iff.mp hq]
    | false =>
      rw [hq] at h
      simp only [Bool.false_eq_true, if_false] at h
      rcases hs : sweepGo spawn (clock i) sfuel [] [] q false with _ | ⟨K, F, r⟩
      · simp only [hs] at h
        simp at h
      · simp only [hs] at h
        rcases hl : eventLoop spawn clock sfuel m (i + 1) K with _ | log2
        · simp only [hl] at h
          simp at h
        · simp only [hl, Option.some.injEq] at h
          subst h
          rcases sweepGo_spec spawn (clock i) sfuel [] [] q false K F r hs with
            ⟨ext, hF, _, hperm⟩
          have hext : ext = F := by simpa using hF.symm
          subst hext
          have hKF : List.Perm (K ++ ext) (q ++ ext.flatMap spawn) := by
            simpa using hperm
          have hIH := ih (i + 1) K log2 hl
          have hmap : ((ext.map (fun t => (clock i, t)) ++ log2).map Prod.snd) =
              ext ++ log2.map Prod.snd := by
            simp [List.map_map, Function.comp]
          rw [hmap]
          have hgoal : List.Perm (ext ++ log2.map Prod.snd)
              ((q ++ ext.flatMap spawn) ++ (log2.map Prod.snd).flatMap spawn) := by
            refine List.Perm.trans (hIH.append_left ext) ?_
            have e3 : ext ++ (K ++ (log2.map Prod.snd).flatMap spawn) =
                (ext ++ K) ++ (log2.map Prod.snd).flatMap spawn := by
              simp [List.append_assoc]
            rw [e3]
            exact ((List.perm_append_comm).append_right _).trans (hKF.append_right _)
          have e4 : q ++ (ext ++ log2.map Prod.snd).flatMap spawn =
              (q ++ ext.flatMap spawn) ++ (log2.map Prod.snd).flatMap spawn := by
            simp [List.append_assoc]
          rw [e4]
          exact hgoal

/-- C8: over any terminating run of the event loop, every fired task
fired at a sweep whose sampled time had reached its due time (never
earlier); the multiset of fired tasks is exactly the initial pending set
plus all tasks enqueued by firing callbacks (each fires exactly once,
is then removed, and tasks spawned mid-run are themselves swept and
fired); and the loop terminates immediately exactly on an empty pending
set. -/
theorem C8_event_loop :
    (∀ (spawn : SchedTask → List SchedTask) (clock : Nat → Int) (sfuel fuel i : Nat)
        (q : List SchedTask) (log : List (Int × SchedTask)),
        eventLoop spawn clock sfuel fuel i q = some log →
        ∀ p ∈ log, p.2.due ≤ p.1) ∧
    (∀ (spawn : SchedTask → List SchedTask) (clock : Nat → Int) (sfuel fuel i : Nat)
        (q : List SchedTask) (log : List (Int × SchedTask)),
        eventLoop spawn clock sfuel fuel i q = some log →
        List.Perm (log.map Prod.snd) (q ++ (log.map Prod.snd).flatMap spawn)) ∧
    (∀ (spawn : SchedTask → List SchedTask) (clock : Nat → Int) (sfuel fuel i : Nat),
        eventLoop spawn clock sfuel (fuel + 1) i [] = some []) :=
  ⟨fun spawn clock sfuel fuel i q log h => eventLoop_fired_due spawn clock sfuel fuel i q log h,
   fun spawn clock sfuel fuel i q log h => eventLoop_balance spawn clock sfuel fuel i q log h,
   fun _ _ _ _ _ => rfl⟩

/-- C8 witness: a one-task queue, due immediately, with a callback that
spawns nothing: the loop fires it once at time 0 and stops. -/
theorem C8_event_loop_witness :
    (∀ p ∈ [((0 : Int), (⟨0, 7⟩ : SchedTask))], p.2.due ≤ p.1) ∧
    List.Perm ([((0 : Int), (⟨0, 7⟩ : SchedTask))].map Prod.snd)
      ([(⟨0, 7⟩ : SchedTask)] ++
        (([((0 : Int), (⟨0, 7⟩ : SchedTask))].map Prod.snd).flatMap
          (fun _ => ([] : List SchedTask)))) :=
  ⟨C8_event_loop.1 (fun _ => []) (fun i => (i : Int)) 3 2 0 [⟨0, 7⟩]
      [((0 : Int), (⟨0, 7⟩ : SchedTask))] rfl,
   C8_event_loop.2.1 (fun _ => []) (fun i => (i : Int)) 3 2 0 [⟨0, 7⟩]
      [((0 : Int), (⟨0, 7⟩ : SchedTask))] rfl⟩

end V8Mini
